import Mathlib

/-!
# Verification of the discarr queue cache and progress tracker

Shallow embedding of `src/monitoring/progress_tracker.py` and
`src/monitoring/cache_manager.py`.  Timestamps, progress percentages and
derived rates are modelled as rationals, byte counts as integers (Python
ints are unbounded), the `progress_history` dict as an insertion-ordered
association list (Python dicts preserve insertion order), and queue items
(Python dicts with optional fields) as structures of `Option` fields so
that `item.get(key, default)` is `field.getD default`.
-/

namespace Discarr

/-- Embeds the `ProgressSnapshot` dataclass of `progress_tracker.py`. -/
structure ProgressSnapshot where
  timestamp : ℚ
  progress_percent : ℚ
  size_left : ℤ
  status : String
  title : String
  download_client : String := ""
  protocol : String := ""
  deriving Repr, DecidableEq

/-- A raw queue item as handed to `record_progress_snapshot`: a Python dict
whose fields may be absent (`item.get(k, d)` supplies the default `d`). -/
structure QueueItem where
  id : Option ℤ := none
  progress : Option ℚ := none
  sizeleft : Option ℤ := none
  status : Option String := none
  title : Option String := none
  download_client : Option String := none
  protocol : Option String := none
  deriving Repr, DecidableEq

/-- The tracker configuration read from `settings` in `ProgressTracker.__init__`. -/
structure TrackerConfig where
  stuck_threshold_minutes : ℚ
  min_progress_change : ℚ
  min_size_change : ℤ
  progress_history_hours : ℚ
  max_snapshots_per_download : ℕ
  deriving Repr, DecidableEq

/-- `self.progress_history`: insertion-ordered map from download id to its
snapshot list. -/
abbrev Store := List (String × List ProgressSnapshot)

/-- Python dict lookup: the (unique) binding of a key; on lists with
duplicate keys it returns the first, matching left-to-right search. -/
def storeFind : Store → String → Option (List ProgressSnapshot)
  | [], _ => none
  | (k, v) :: rest, key => if k = key then some v else storeFind rest key

/-- Python dict assignment `d[key] = v`: overwrite in place if the key is
present, otherwise append the new binding at the end (insertion order). -/
def storeSet : Store → String → List ProgressSnapshot → Store
  | [], key, v => [(key, v)]
  | (k, w) :: rest, key, v =>
      if k = key then (key, v) :: rest else (k, w) :: storeSet rest key v

/-- Python slice `l[-k:]` for `k ≥ 0`: the last `k` elements, except that
`l[-0:]` is the whole list (negative zero is zero). -/
def pySliceLast (k : ℕ) (l : List ProgressSnapshot) : List ProgressSnapshot :=
  if k = 0 then l else l.drop (l.length - k)

/-- `f"{service_type}_{item.get('id', 0)}"`. -/
def downloadId (service_type : String) (item : QueueItem) : String :=
  service_type ++ "_" ++ toString (item.id.getD 0)

/-- Building the `ProgressSnapshot` in `record_progress_snapshot`, with the
defaults the code passes to `item.get`. -/
def mkSnapshot (now : ℚ) (item : QueueItem) : ProgressSnapshot :=
  { timestamp := now
    progress_percent := item.progress.getD 0
    size_left := item.sizeleft.getD 0
    status := item.status.getD "unknown"
    title := item.title.getD "Unknown"
    download_client := item.download_client.getD ""
    protocol := item.protocol.getD "" }

/-- `if len(history[id]) > max: history[id] = history[id][-max:]`. -/
def trimEntry (cfg : TrackerConfig) (l : List ProgressSnapshot) : List ProgressSnapshot :=
  if cfg.max_snapshots_per_download < l.length then
    pySliceLast cfg.max_snapshots_per_download l
  else l

/-- One iteration of the item loop of `record_progress_snapshot`: create the
entry if new, append the snapshot, trim to the per-download bound. -/
def processItem (svc : String) (now : ℚ) (cfg : TrackerConfig)
    (store : Store) (item : QueueItem) : Store :=
  let id := downloadId svc item
  let entry := (storeFind store id).getD []
  storeSet store id (trimEntry cfg (entry ++ [mkSnapshot now item]))

/-- The whole item loop of `record_progress_snapshot`. -/
def processItems (items : List QueueItem) (svc : String) (now : ℚ)
    (cfg : TrackerConfig) (store : Store) : Store :=
  items.foldl (processItem svc now cfg) store

/-- The `active_download_ids` set, as the list of ids of the batch. -/
def activeIds (items : List QueueItem) (svc : String) : List String :=
  items.map (downloadId svc)

/-- `_cleanup_inactive_downloads`: delete every entry whose key is not in
the active set; remaining entries keep their order. -/
def cleanupInactiveDownloads (active : List String) (store : Store) : Store :=
  store.filter (fun e => e.1 ∈ active)

/-- `snapshots[-2:]` as used by `_cleanup_old_snapshots` (only reached when
the list has at least two elements). -/
def lastTwo (l : List ProgressSnapshot) : List ProgressSnapshot :=
  l.drop (l.length - 2)

/-- Per-entry body of `_cleanup_old_snapshots`: keep the in-window
snapshots, but fall back to the last two when fewer than two are in the
window and the entry has at least two. -/
def pruneEntry (cutoff : ℚ) (snaps : List ProgressSnapshot) : List ProgressSnapshot :=
  if (snaps.filter (fun s => cutoff ≤ s.timestamp)).length < 2 ∧ 2 ≤ snaps.length then
    lastTwo snaps
  else snaps.filter (fun s => cutoff ≤ s.timestamp)

/-- `_cleanup_old_snapshots`. -/
def cleanupOldSnapshots (now : ℚ) (cfg : TrackerConfig) (store : Store) : Store :=
  store.map (fun e => (e.1, pruneEntry (now - cfg.progress_history_hours * 3600) e.2))

/-- The store after the item loop and the absence purge of
`record_progress_snapshot`, before the time-window prune. -/
def recordedBeforePrune (items : List QueueItem) (svc : String) (now : ℚ)
    (cfg : TrackerConfig) (store : Store) : Store :=
  cleanupInactiveDownloads (activeIds items svc) (processItems items svc now cfg store)

/-- `record_progress_snapshot(download_items, service_type)` as a function of
the current time and the tracker state. -/
def recordProgressSnapshot (items : List QueueItem) (svc : String) (now : ℚ)
    (cfg : TrackerConfig) (store : Store) : Store :=
  cleanupOldSnapshots now cfg (recordedBeforePrune items svc now cfg store)

/-- Python `abs` on a float/rational. -/
def qabs (q : ℚ) : ℚ := if q < 0 then -q else q

/-- Python `abs` on an int. -/
def zabs (z : ℤ) : ℤ := if z < 0 then -z else z

/-- Characters before and after the first `'_'` (helper for
`splitServiceId`). -/
def splitAtUnderscore : List Char → List Char × List Char
  | [] => ([], [])
  | c :: rest =>
      if c = '_' then ([], rest)
      else
        let p := splitAtUnderscore rest
        (c :: p.1, p.2)

/-- `download_id.split('_', 1)`: the part before the first underscore and
the remainder (every id built by the tracker contains an underscore). -/
def splitServiceId (s : String) : String × String :=
  let p := splitAtUnderscore s.toList
  (String.mk p.1, String.mk p.2)

/-- The dictionary built by `_analyze_download_progress` for a stuck
download (the Python `int(item_id)` round-trips the decimal string the id
was built from, so the id is kept as that string). -/
structure StuckInfo where
  download_id : String
  service : String
  item_id : String
  title : String
  status : String
  progress_percent : ℚ
  size_left : ℤ
  stuck_duration_minutes : ℚ
  progress_change : ℚ
  size_change : ℤ
  download_client : String
  protocol : String
  deriving Repr, DecidableEq

/-- `_analyze_download_progress`. -/
def analyzeDownloadProgress (cfg : TrackerConfig) (download_id : String)
    (snapshots : List ProgressSnapshot) (now : ℚ) : Option StuckInfo :=
  let threshold_time := now - cfg.stuck_threshold_minutes * 60
  match snapshots.filter (fun s => threshold_time ≤ s.timestamp) with
  | oldest :: s :: rest =>
      let newest := (s :: rest).getLastD s
      let progress_change := qabs (newest.progress_percent - oldest.progress_percent)
      let size_change := zabs (oldest.size_left - newest.size_left)
      let time_span_minutes := (newest.timestamp - oldest.timestamp) / 60
      if cfg.stuck_threshold_minutes ≤ time_span_minutes ∧
          progress_change < cfg.min_progress_change ∧
          size_change < cfg.min_size_change ∧
          (newest.status = "downloading" ∨ newest.status = "queued") then
        some
          { download_id := download_id
            service := (splitServiceId download_id).1
            item_id := (splitServiceId download_id).2
            title := newest.title
            status := newest.status
            progress_percent := newest.progress_percent
            size_left := newest.size_left
            stuck_duration_minutes := time_span_minutes
            progress_change := progress_change
            size_change := size_change
            download_client := newest.download_client
            protocol := newest.protocol }
      else none
  | _ => none

/-- `analyze_stuck_downloads`. -/
def analyzeStuckDownloads (store : Store) (now : ℚ) (cfg : TrackerConfig) :
    List StuckInfo :=
  store.filterMap (fun e =>
    if e.2.length < 2 then none else analyzeDownloadProgress cfg e.1 e.2 now)

/-- The dictionary returned by `get_download_progress_summary`. -/
structure ProgressSummary where
  download_id : String
  title : String
  current_progress : ℚ
  current_status : String
  snapshots_count : ℕ
  tracking_duration_hours : ℚ
  total_progress_change : ℚ
  total_size_change : ℤ
  deriving Repr, DecidableEq

/-- `get_download_progress_summary`. -/
def getDownloadProgressSummary (store : Store) (download_id : String) :
    Option ProgressSummary :=
  match storeFind store download_id with
  | none => none
  | some [] => none
  | some (oldest :: rest) =>
      let latest := rest.getLastD oldest
      some
        { download_id := download_id
          title := latest.title
          current_progress := latest.progress_percent
          current_status := latest.status
          snapshots_count := (oldest :: rest).length
          tracking_duration_hours := (latest.timestamp - oldest.timestamp) / 3600
          total_progress_change := latest.progress_percent - oldest.progress_percent
          total_size_change := oldest.size_left - latest.size_left }

/-- The per-pair contribution of the inner loop of
`_calculate_download_speeds`: skip non-positive time deltas, skip
non-positive byte deltas, emit the MiB/s figure when positive. -/
def pairSample (prev curr : ProgressSnapshot) : List ℚ :=
  if curr.timestamp - prev.timestamp ≤ 0 then []
  else if prev.size_left - curr.size_left ≤ 0 then []
  else if 0 < ((prev.size_left - curr.size_left : ℤ) : ℚ) / (1024 * 1024) /
      (curr.timestamp - prev.timestamp) then
    [((prev.size_left - curr.size_left : ℤ) : ℚ) / (1024 * 1024) /
      (curr.timestamp - prev.timestamp)]
  else []

/-- The inner loop of `_calculate_download_speeds` over consecutive pairs. -/
def pairSpeeds : List ProgressSnapshot → List ℚ
  | a :: b :: rest => pairSample a b ++ pairSpeeds (b :: rest)
  | _ => []

/-- `_calculate_download_speeds`. -/
def calculateDownloadSpeeds (store : Store) : List ℚ :=
  store.flatMap (fun e => if e.2.length < 2 then [] else pairSpeeds e.2)

/-!
## Cache manager (`cache_manager.py`)

The observable mutable state of `CacheManager` and one refresh cycle as a
function of the cycle start time and of what each upstream
`get_queue_items()` call produced.  A fetch either raises (a network
error, or `asyncio.wait_for` timing out — both land in the same `except`
arms), returns `None` (treated as `[]`), returns a non-list value, or
returns a list of items.  The fire-and-forget `get_download_updates` call
only logs on failure and changes no cache state, so it has no field here.
-/

/-- Outcome of one `get_queue_items()` call as seen by
`_refresh_radarr_data` / `_refresh_sonarr_data`. -/
inductive FetchResult where
  | ok (items : List QueueItem)
  | nil
  | nonList
  | err
  deriving Repr, DecidableEq

/-- The cache-manager state the refresh cycle reads and writes. -/
structure CacheState where
  movie_queue : List QueueItem
  tv_queue : List QueueItem
  radarr_loaded : Bool
  sonarr_loaded : Bool
  last_refresh : ℚ
  refresh_interval : ℚ
  tracker : Store
  deriving Repr, DecidableEq

/-- `_refresh_radarr_data`: on a list result, publish the queue, record
progress snapshots and mark ready; on `None`, behave as for `[]`; on a
non-list value or an exception/timeout, force `radarr_loaded = False` and
leave the cached queue untouched. -/
def refreshRadarrData (now : ℚ) (cfg : TrackerConfig) (r : FetchResult)
    (s : CacheState) : CacheState :=
  match r with
  | .ok items =>
      { s with
        movie_queue := items
        tracker := recordProgressSnapshot items "radarr" now cfg s.tracker
        radarr_loaded := true }
  | .nil =>
      { s with
        movie_queue := []
        tracker := recordProgressSnapshot [] "radarr" now cfg s.tracker
        radarr_loaded := true }
  | .nonList => { s with radarr_loaded := false }
  | .err => { s with radarr_loaded := false }

/-- `_refresh_sonarr_data`, symmetric to `refreshRadarrData`. -/
def refreshSonarrData (now : ℚ) (cfg : TrackerConfig) (r : FetchResult)
    (s : CacheState) : CacheState :=
  match r with
  | .ok items =>
      { s with
        tv_queue := items
        tracker := recordProgressSnapshot items "sonarr" now cfg s.tracker
        sonarr_loaded := true }
  | .nil =>
      { s with
        tv_queue := []
        tracker := recordProgressSnapshot [] "sonarr" now cfg s.tracker
        sonarr_loaded := true }
  | .nonList => { s with sonarr_loaded := false }
  | .err => { s with sonarr_loaded := false }

/-- `_async_refresh_data`: refresh Radarr, then Sonarr, each handled
independently so one failure cannot abort the other. -/
def asyncRefreshData (now : ℚ) (cfg : TrackerConfig) (rRadarr rSonarr : FetchResult)
    (s : CacheState) : CacheState :=
  refreshSonarrData now cfg rSonarr (refreshRadarrData now cfg rRadarr s)

/-- `_refresh_data_async`: skip when inside the refresh interval with both
sources ready, otherwise attempt both sources and stamp `last_refresh`
with the cycle start time.  The second component records whether the
sources were contacted this cycle. -/
def refreshDataAsync (now : ℚ) (cfg : TrackerConfig) (rRadarr rSonarr : FetchResult)
    (s : CacheState) : CacheState × Bool :=
  if now - s.last_refresh < s.refresh_interval ∧ s.radarr_loaded ∧ s.sonarr_loaded then
    (s, false)
  else
    ({ asyncRefreshData now cfg rRadarr rSonarr s with last_refresh := now }, true)


/-!
## Invariant predicates used in the proofs
-/

/-- Snapshots in chronological (nondecreasing-timestamp) order. -/
def Chrono (l : List ProgressSnapshot) : Prop :=
  l.Pairwise (fun a b => a.timestamp ≤ b.timestamp)

/-- All timestamps at or before `now`. -/
def TsLe (now : ℚ) (l : List ProgressSnapshot) : Prop :=
  ∀ s ∈ l, s.timestamp ≤ now

/-- Every entry of the store is chronological with timestamps ≤ `now`. -/
def StoreOk (now : ℚ) (m : Store) : Prop :=
  ∀ e ∈ m, Chrono e.2 ∧ TsLe now e.2

/-- The key has an entry whose last snapshot was taken at `now`. -/
def TouchedAt (now : ℚ) (m : Store) (k : String) : Prop :=
  ∃ e s, storeFind m k = some e ∧ e.getLast? = some s ∧ s.timestamp = now

/-!
## Spec-side formulation of the throughput contract

`speedsSpec` transcribes the specification sentence "one value per
consecutive snapshot pair across all tracked downloads where
`timeDiff > 0` and `bytesDownloaded = prev.sizeLeft - curr.sizeLeft > 0`,
computed as `bytesDownloaded / 1,048,576 / timeDiff`", to be compared
with `calculateDownloadSpeeds` as translated from the code.
-/

/-- The MiB/s figure for one snapshot pair. -/
def speedSample (prev curr : ProgressSnapshot) : ℚ :=
  ((prev.size_left - curr.size_left : ℤ) : ℚ) / (1024 * 1024) / (curr.timestamp - prev.timestamp)

/-- The speed list as the specification words it. -/
def speedsSpec (store : Store) : List ℚ :=
  store.flatMap (fun e =>
    (e.2.zip e.2.tail).filterMap (fun pc =>
      if 0 < pc.2.timestamp - pc.1.timestamp ∧ 0 < pc.1.size_left - pc.2.size_left then
        some (speedSample pc.1 pc.2)
      else none))

/-- A finite sequence of `record_progress_snapshot` calls
(batch, service type, call time) applied in order. -/
def recordMany (cfg : TrackerConfig) (calls : List (List QueueItem × String × ℚ))
    (store : Store) : Store :=
  calls.foldl (fun st c => recordProgressSnapshot c.1 c.2.1 c.2.2 cfg st) store

/-!
## Concrete fixtures used by the closed theorems
-/

/-- The tracker settings defaults: 120 min stuck threshold, 1 % minimum
progress change, 100 MiB minimum size change, 4 h history window,
50 snapshots per download. -/
def defaultConfig : TrackerConfig := ⟨120, 1, 104857600, 4, 50⟩

/-- Snapshot at t=0 s: progress 50 %, 1,000,000,000 bytes left. -/
def c1SnapEarly : ProgressSnapshot := ⟨0, 50, 1000000000, "downloading", "Example", "", ""⟩

/-- Snapshot at t=130 min: progress 50.2 %, 999,900,000 bytes left. -/
def c1SnapLate : ProgressSnapshot := ⟨7800, 251/5, 999900000, "downloading", "Example", "", ""⟩

/-- Snapshot at t=10 min with the same readings as `c1SnapEarly`. -/
def c1SnapEdge : ProgressSnapshot := ⟨600, 50, 1000000000, "downloading", "Example", "", ""⟩

/-- A Sonarr snapshot present before the Radarr batch of C2 is recorded. -/
def c2SonarrSnap : ProgressSnapshot := ⟨0, 30, 500000000, "downloading", "Show", "", ""⟩

/-- A well-formed Radarr queue item. -/
def c2RadarrItem : QueueItem :=
  { id := some 1, progress := some 50, sizeleft := some 1000000000,
    status := some "downloading", title := some "Movie" }

/-- Two snapshots 10 s apart with `size_left` dropping by 500,000,000. -/
def c6Store : Store :=
  [("radarr_1",
    [⟨0, 50, 1000000000, "downloading", "M", "", ""⟩,
     ⟨10, 75, 500000000, "downloading", "M", "", ""⟩])]

/-- Two snapshots 10 s apart with non-decreasing `size_left`. -/
def c6FlatStore : Store :=
  [("radarr_1",
    [⟨0, 50, 1000000000, "downloading", "M", "", ""⟩,
     ⟨10, 50, 1000000000, "downloading", "M", "", ""⟩])]

/-- Two snapshots with equal timestamps (non-positive time difference). -/
def c6ZeroTdStore : Store :=
  [("radarr_1",
    [⟨10, 50, 1000000000, "downloading", "M", "", ""⟩,
     ⟨10, 75, 500000000, "downloading", "M", "", ""⟩])]

/-- A cache state inside its refresh interval with both sources ready. -/
def c7State : CacheState :=
  { movie_queue := [], tv_queue := [], radarr_loaded := true, sonarr_loaded := true,
    last_refresh := 0, refresh_interval := 30, tracker := [] }

/-- A queue item missing its progress, size, and status fields. -/
def c8Malformed : QueueItem := { id := some 1, title := some "Invalid Movie" }

/-!
## Association-list lemmas for the progress-history dict
-/

theorem storeFind_mem {m : Store} {k : String} {v : List ProgressSnapshot}
    (h : storeFind m k = some v) : (k, v) ∈ m := by
  induction m with
  | nil => simp [storeFind] at h
  | cons e rest ih =>
      obtain ⟨k0, v0⟩ := e
      by_cases hk : k0 = k
      · subst hk
        simp [storeFind] at h
        simp [h]
      · simp [storeFind, hk] at h
        exact List.mem_cons_of_mem _ (ih h)

theorem mem_storeSet {m : Store} {k : String} {v : List ProgressSnapshot}
    {e : String × List ProgressSnapshot} (h : e ∈ storeSet m k v) :
    e = (k, v) ∨ e ∈ m := by
  induction m with
  | nil => simpa [storeSet] using h
  | cons e0 rest ih =>
      obtain ⟨k0, v0⟩ := e0
      by_cases hk : k0 = k
      · subst hk
        simp [storeSet] at h
        rcases h with h | h
        · exact Or.inl h
        · exact Or.inr (List.mem_cons_of_mem _ h)
      · simp [storeSet, hk] at h
        rcases h with h | h
        · exact Or.inr (by simp [h])
        · rcases ih h with h1 | h1
          · exact Or.inl h1
          · exact Or.inr (List.mem_cons_of_mem _ h1)

theorem storeFind_storeSet_self (m : Store) (k : String) (v : List ProgressSnapshot) :
    storeFind (storeSet m k v) k = some v := by
  induction m with
  | nil => simp [storeSet, storeFind]
  | cons e0 rest ih =>
      obtain ⟨k0, v0⟩ := e0
      by_cases hk : k0 = k
      · subst hk
        simp [storeSet, storeFind]
      · simp [storeSet, storeFind, hk, ih]

theorem storeFind_storeSet_ne (m : Store) {k kq : String} (v : List ProgressSnapshot)
    (h : k ≠ kq) : storeFind (storeSet m k v) kq = storeFind m kq := by
  induction m with
  | nil => simp [storeSet, storeFind, h]
  | cons e0 rest ih =>
      obtain ⟨k0, v0⟩ := e0
      by_cases hk : k0 = k
      · subst hk
        simp [storeSet, storeFind, h]
      · simp [storeSet, storeFind, hk, ih]

theorem keys_storeSet_subset (m : Store) (k : String) (v : List ProgressSnapshot) :
    ((storeSet m k v).map Prod.fst) ⊆ k :: m.map Prod.fst := by
  induction m with
  | nil =>
      intro x hx
      simp [storeSet] at hx
      simp [hx]
  | cons e0 rest ih =>
      obtain ⟨k0, v0⟩ := e0
      by_cases hk : k0 = k
      · subst hk
        rw [storeSet, if_pos rfl]
        intro x hx
        rcases List.mem_cons.mp hx with hx | hx
        · simp [hx]
        · exact List.mem_cons_of_mem _ (List.mem_cons_of_mem _ hx)
      · rw [storeSet, if_neg hk]
        intro x hx
        rcases List.mem_cons.mp hx with hx | hx
        · exact List.mem_cons_of_mem _ (by simp [hx])
        · rcases List.mem_cons.mp (ih hx) with h1 | h1
          · simp [h1]
          · exact List.mem_cons_of_mem _ (List.mem_cons_of_mem _ h1)

theorem keys_storeSet_nodup {m : Store} (k : String) (v : List ProgressSnapshot)
    (h : (m.map Prod.fst).Nodup) : ((storeSet m k v).map Prod.fst).Nodup := by
  induction m with
  | nil => simp [storeSet]
  | cons e0 rest ih =>
      obtain ⟨k0, v0⟩ := e0
      rw [List.map_cons, List.nodup_cons] at h
      by_cases hk : k0 = k
      · subst hk
        rw [storeSet, if_pos rfl]
        simpa [List.nodup_cons] using h
      · rw [storeSet, if_neg hk, List.map_cons, List.nodup_cons]
        refine ⟨?_, ih h.2⟩
        intro hmem
        rcases List.mem_cons.mp (keys_storeSet_subset rest k v hmem) with h1 | h1
        · exact hk h1
        · exact h.1 h1

theorem storeFind_eq_of_mem_nodup {m : Store} (hnd : (m.map Prod.fst).Nodup)
    {k : String} {v : List ProgressSnapshot} (hm : (k, v) ∈ m) :
    storeFind m k = some v := by
  induction m with
  | nil => simp at hm
  | cons e0 rest ih =>
      obtain ⟨k0, v0⟩ := e0
      rw [List.map_cons, List.nodup_cons] at hnd
      rcases List.mem_cons.mp hm with h | h
      · have h1 : k = k0 := congrArg Prod.fst h
        have h2 : v = v0 := congrArg Prod.snd h
        subst h1
        subst h2
        simp [storeFind]
      · have hkm : k ∈ rest.map Prod.fst := by
          simpa using List.mem_map_of_mem Prod.fst h
        have hk : k0 ≠ k := fun hek => hnd.1 (hek ▸ hkm)
        rw [storeFind, if_neg hk]
        exact ih hnd.2 h

theorem mem_unique_of_nodup {m : Store} (hnd : (m.map Prod.fst).Nodup)
    {k : String} {v w : List ProgressSnapshot} (hv : (k, v) ∈ m) (hw : (k, w) ∈ m) :
    v = w := by
  have h1 := storeFind_eq_of_mem_nodup hnd hv
  have h2 := storeFind_eq_of_mem_nodup hnd hw
  rw [h1] at h2
  exact Option.some.inj h2

/-!
## Slice and trim lemmas
-/

theorem pySliceLast_suffix (k : ℕ) (l : List ProgressSnapshot) :
    pySliceLast k l <:+ l := by
  unfold pySliceLast
  split
  · exact List.suffix_refl l
  · exact List.drop_suffix _ _

theorem pySliceLast_ne_nil {k : ℕ} {l : List ProgressSnapshot}
    (hk : 1 ≤ k) (hl : l ≠ []) : pySliceLast k l ≠ [] := by
  unfold pySliceLast
  split
  · exact hl
  · have h0 : 0 < l.length := List.length_pos.mpr hl
    intro hcon
    have := congrArg List.length hcon
    rw [List.length_drop] at this
    simp at this
    omega

theorem length_pySliceLast_le {k : ℕ} (hk : 1 ≤ k) (l : List ProgressSnapshot) :
    (pySliceLast k l).length ≤ k := by
  unfold pySliceLast
  rw [if_neg (by omega)]
  rw [List.length_drop]
  omega

theorem trimEntry_suffix (cfg : TrackerConfig) (l : List ProgressSnapshot) :
    trimEntry cfg l <:+ l := by
  unfold trimEntry
  split
  · exact pySliceLast_suffix _ _
  · exact List.suffix_refl l

theorem length_trimEntry_le {cfg : TrackerConfig}
    (hmax : 1 ≤ cfg.max_snapshots_per_download) (l : List ProgressSnapshot) :
    (trimEntry cfg l).length ≤ cfg.max_snapshots_per_download := by
  unfold trimEntry
  split
  · exact length_pySliceLast_le hmax l
  · omega

theorem getLast?_of_suffix {l₁ l₂ : List ProgressSnapshot}
    (h : l₁ <:+ l₂) (hne : l₁ ≠ []) : l₂.getLast? = l₁.getLast? := by
  obtain ⟨t, rfl⟩ := h
  rw [List.getLast?_append]
  cases hl : l₁.getLast? with
  | none => exact absurd (List.getLast?_eq_none_iff.mp hl) hne
  | some s => simp

theorem getLast?_trimEntry_concat (cfg : TrackerConfig)
    (l : List ProgressSnapshot) (a : ProgressSnapshot) :
    (trimEntry cfg (l ++ [a])).getLast? = some a := by
  unfold trimEntry
  split
  · next hlen =>
      rcases Nat.eq_zero_or_pos cfg.max_snapshots_per_download with h0 | h1
      · rw [h0]
        unfold pySliceLast
        rw [if_pos rfl, List.getLast?_concat]
      · have hne : pySliceLast cfg.max_snapshots_per_download (l ++ [a]) ≠ [] :=
          pySliceLast_ne_nil h1 (by simp)
        rw [← getLast?_of_suffix (pySliceLast_suffix _ _) hne, List.getLast?_concat]
  · exact List.getLast?_concat _

/-!
## Chronology invariants maintained by the item loop
-/

theorem chrono_of_sublist {l₁ l₂ : List ProgressSnapshot}
    (h : List.Sublist l₁ l₂) (hc : Chrono l₂) : Chrono l₁ :=
  List.Pairwise.sublist h hc

theorem tsLe_of_sublist {now : ℚ} {l₁ l₂ : List ProgressSnapshot}
    (h : List.Sublist l₁ l₂) (ht : TsLe now l₂) : TsLe now l₁ :=
  fun s hs => ht s (h.subset hs)

theorem chrono_concat_now {now : ℚ} {l : List ProgressSnapshot}
    (hc : Chrono l) (ht : TsLe now l) (s : ProgressSnapshot)
    (hs : s.timestamp = now) : Chrono (l ++ [s]) := by
  unfold Chrono
  rw [List.pairwise_append]
  refine ⟨hc, List.pairwise_singleton _ _, ?_⟩
  intro a ha b hb
  rw [List.mem_singleton] at hb
  subst hb
  rw [hs]
  exact ht a ha

theorem tsLe_concat_now {now : ℚ} {l : List ProgressSnapshot}
    (ht : TsLe now l) (s : ProgressSnapshot) (hs : s.timestamp = now) :
    TsLe now (l ++ [s]) := by
  intro a ha
  rcases List.mem_append.mp ha with h | h
  · exact ht a h
  · rw [List.mem_singleton] at h
    subst h
    rw [hs]

theorem storeOk_processItem {now : ℚ} {cfg : TrackerConfig} {svc : String}
    {m : Store} (hok : StoreOk now m) (item : QueueItem) :
    StoreOk now (processItem svc now cfg m item) := by
  intro e he
  rcases mem_storeSet he with he1 | he1
  · subst he1
    have hold : Chrono ((storeFind m (downloadId svc item)).getD []) ∧
        TsLe now ((storeFind m (downloadId svc item)).getD []) := by
      cases hf : storeFind m (downloadId svc item) with
      | none => exact ⟨List.Pairwise.nil, fun s hs => absurd hs (List.not_mem_nil s)⟩
      | some v => exact hok _ (storeFind_mem hf)
    have hcat : Chrono (((storeFind m (downloadId svc item)).getD []) ++ [mkSnapshot now item]) :=
      chrono_concat_now hold.1 hold.2 _ rfl
    have htcat : TsLe now (((storeFind m (downloadId svc item)).getD []) ++ [mkSnapshot now item]) :=
      tsLe_concat_now hold.2 _ rfl
    exact ⟨chrono_of_sublist (trimEntry_suffix _ _).sublist hcat,
      tsLe_of_sublist (trimEntry_suffix _ _).sublist htcat⟩
  · exact hok _ he1

theorem storeOk_processItems {now : ℚ} {cfg : TrackerConfig} {svc : String}
    (items : List QueueItem) {m : Store} (hok : StoreOk now m) :
    StoreOk now (processItems items svc now cfg m) := by
  induction items generalizing m with
  | nil => exact hok
  | cons i is ih => exact ih (storeOk_processItem hok i)

/-!
## Entries touched by the item loop end with a snapshot taken now
-/

theorem touchedAt_processItem_self (svc : String) (now : ℚ) (cfg : TrackerConfig)
    (m : Store) (item : QueueItem) :
    TouchedAt now (processItem svc now cfg m item) (downloadId svc item) := by
  refine ⟨trimEntry cfg (((storeFind m (downloadId svc item)).getD []) ++ [mkSnapshot now item]),
    mkSnapshot now item, ?_, ?_, rfl⟩
  · exact storeFind_storeSet_self m _ _
  · exact getLast?_trimEntry_concat cfg _ _

theorem touchedAt_processItem (svc : String) (now : ℚ) (cfg : TrackerConfig)
    {m : Store} {k : String} (h : TouchedAt now m k) (item : QueueItem) :
    TouchedAt now (processItem svc now cfg m item) k := by
  by_cases hk : downloadId svc item = k
  · subst hk
    exact touchedAt_processItem_self svc now cfg m item
  · obtain ⟨e, s, h1, h2, h3⟩ := h
    refine ⟨e, s, ?_, h2, h3⟩
    rw [processItem, storeFind_storeSet_ne _ _ hk]
    exact h1

theorem touchedAt_processItems (svc : String) (now : ℚ) (cfg : TrackerConfig)
    (items : List QueueItem) {m : Store} {k : String} (h : TouchedAt now m k) :
    TouchedAt now (processItems items svc now cfg m) k := by
  induction items generalizing m with
  | nil => exact h
  | cons i is ih => exact ih (touchedAt_processItem svc now cfg h i)

theorem touchedAt_processItems_of_mem (svc : String) (now : ℚ) (cfg : TrackerConfig)
    {items : List QueueItem} {item : QueueItem} (hmem : item ∈ items) (m : Store) :
    TouchedAt now (processItems items svc now cfg m) (downloadId svc item) := by
  induction items generalizing m with
  | nil => exact absurd hmem (List.not_mem_nil item)
  | cons i is ih =>
      rcases List.mem_cons.mp hmem with h | h
      · subst h
        exact touchedAt_processItems svc now cfg is
          (touchedAt_processItem_self svc now cfg m item)
      · exact ih h (processItem svc now cfg m i)

/-!
## Key uniqueness through the record pipeline
-/

theorem keys_processItem_nodup {svc : String} {now : ℚ} {cfg : TrackerConfig}
    {m : Store} (h : (m.map Prod.fst).Nodup) (item : QueueItem) :
    ((processItem svc now cfg m item).map Prod.fst).Nodup :=
  keys_storeSet_nodup _ _ h

theorem keys_processItems_nodup {svc : String} {now : ℚ} {cfg : TrackerConfig}
    (items : List QueueItem) {m : Store} (h : (m.map Prod.fst).Nodup) :
    ((processItems items svc now cfg m).map Prod.fst).Nodup := by
  induction items generalizing m with
  | nil => exact h
  | cons i is ih => exact ih (keys_processItem_nodup h i)

theorem keys_cleanupInactive_nodup {active : List String} {m : Store}
    (h : (m.map Prod.fst).Nodup) :
    ((cleanupInactiveDownloads active m).map Prod.fst).Nodup :=
  h.sublist (List.Sublist.map Prod.fst (List.filter_sublist m))

theorem storeFind_cleanupInactive {active : List String} {m : Store} {k : String}
    {v : List ProgressSnapshot} (hf : storeFind m k = some v) (hk : k ∈ active) :
    storeFind (cleanupInactiveDownloads active m) k = some v := by
  induction m with
  | nil => simp [storeFind] at hf
  | cons e0 rest ih =>
      obtain ⟨k0, v0⟩ := e0
      by_cases hk0 : k0 = k
      · subst hk0
        rw [storeFind, if_pos rfl] at hf
        rw [cleanupInactiveDownloads, List.filter_cons, if_pos (by simpa using hk)]
        rw [storeFind, if_pos rfl]
        exact hf
      · rw [storeFind, if_neg hk0] at hf
        rw [cleanupInactiveDownloads, List.filter_cons]
        split
        · rw [storeFind, if_neg hk0]
          exact ih hf
        · exact ih hf

theorem storeFind_cleanupOld (now : ℚ) (cfg : TrackerConfig) (m : Store) (k : String) :
    storeFind (cleanupOldSnapshots now cfg m) k =
      (storeFind m k).map (pruneEntry (now - cfg.progress_history_hours * 3600)) := by
  induction m with
  | nil => simp [cleanupOldSnapshots, storeFind]
  | cons e0 rest ih =>
      obtain ⟨k0, v0⟩ := e0
      by_cases hk0 : k0 = k
      · subst hk0
        simp [cleanupOldSnapshots, storeFind]
      · simp only [cleanupOldSnapshots, List.map_cons, storeFind, if_neg hk0]
        simpa [cleanupOldSnapshots] using ih

/-!
## Behaviour of the per-entry time-window prune
-/

theorem exists_concat_two {l : List ProgressSnapshot} (h : 2 ≤ l.length) :
    ∃ front a b, l = front ++ [a, b] := by
  cases hr : l.reverse with
  | nil =>
      have hlen := congrArg List.length hr
      rw [List.length_reverse, List.length_nil] at hlen
      omega
  | cons b t =>
      cases t with
      | nil =>
          have hlen := congrArg List.length hr
          rw [List.length_reverse, List.length_cons, List.length_nil] at hlen
          omega
      | cons a rest =>
          refine ⟨rest.reverse, a, b, ?_⟩
          have hl : l = (b :: a :: rest).reverse := by rw [← hr, List.reverse_reverse]
          rw [hl]
          simp

theorem lastTwo_concat_two (front : List ProgressSnapshot) (a b : ProgressSnapshot) :
    lastTwo (front ++ [a, b]) = [a, b] := by
  unfold lastTwo
  have h : (front ++ [a, b]).length - 2 = front.length := by
    rw [List.length_append]
    simp
  rw [h, List.drop_left]

theorem lastTwo_suffix (l : List ProgressSnapshot) : lastTwo l <:+ l :=
  List.drop_suffix _ _

theorem lastTwo_ne_nil {l : List ProgressSnapshot} (h : l ≠ []) : lastTwo l ≠ [] := by
  unfold lastTwo
  intro hcon
  have := congrArg List.length hcon
  rw [List.length_drop] at this
  have h0 : 0 < l.length := List.length_pos.mpr h
  simp at this
  omega

theorem getLast_mem_lastTwo {l : List ProgressSnapshot} {s : ProgressSnapshot}
    (h : l.getLast? = some s) : s ∈ lastTwo l := by
  have hne : l ≠ [] := by
    intro hcon
    subst hcon
    simp at h
  have h2 : (lastTwo l).getLast? = some s := by
    rw [← getLast?_of_suffix (lastTwo_suffix l) (lastTwo_ne_nil hne)]
    exact h
  exact List.mem_of_getLast?_eq_some h2

theorem lastTwo_subset_pruneEntry {cutoff : ℚ} {l : List ProgressSnapshot}
    (hc : Chrono l)
    (hlast : ∀ s, l.getLast? = some s → cutoff ≤ s.timestamp) :
    ∀ s ∈ lastTwo l, s ∈ pruneEntry cutoff l := by
  by_cases h2 : 2 ≤ l.length
  · obtain ⟨front, a, b, rfl⟩ := exists_concat_two h2
    rw [lastTwo_concat_two]
    unfold Chrono at hc
    rw [List.pairwise_append] at hc
    have hab : a.timestamp ≤ b.timestamp := by
      have := hc.2.1
      rw [List.pairwise_cons] at this
      exact this.1 b (List.mem_singleton.mpr rfl)
    have hfr : ∀ x ∈ front, x.timestamp ≤ a.timestamp := by
      intro x hx
      exact hc.2.2 x hx a (by simp)
    intro s hs
    by_cases ha : cutoff ≤ a.timestamp
    · have hb : cutoff ≤ b.timestamp := le_trans ha hab
      unfold pruneEntry
      split
      · rw [lastTwo_concat_two]
        exact hs
      · rw [List.mem_filter]
        rcases List.mem_cons.mp hs with h | h
        · subst h
          exact ⟨by simp, by simpa using ha⟩
        · rw [List.mem_singleton] at h
          subst h
          exact ⟨by simp, by simpa using hb⟩
    · have hfilter :
          (front ++ [a, b]).filter (fun s => decide (cutoff ≤ s.timestamp)) =
            [a, b].filter (fun s => decide (cutoff ≤ s.timestamp)) := by
        rw [List.filter_append]
        have : front.filter (fun s => decide (cutoff ≤ s.timestamp)) = [] := by
          rw [List.filter_eq_nil_iff]
          intro x hx
          simp only [decide_eq_true_eq]
          intro hcx
          exact ha (le_trans hcx (hfr x hx))
        rw [this, List.nil_append]
      unfold pruneEntry
      rw [if_pos]
      · rw [lastTwo_concat_two]
        exact hs
      · constructor
        · rw [hfilter, List.filter_cons, if_neg (by simpa using ha)]
          have hle := List.length_filter_le (fun s => decide (cutoff ≤ s.timestamp)) [b]
          simp only [List.length_cons, List.length_nil] at hle
          omega
        · exact h2
  · intro s hs
    have hsub : s ∈ l := (lastTwo_suffix l).sublist.subset hs
    have hl1 : l.length ≤ 1 := by omega
    cases l with
    | nil => simp at hsub
    | cons x xs =>
        cases xs with
        | nil =>
            rw [List.mem_singleton] at hsub
            subst hsub
            have hcx : cutoff ≤ s.timestamp := hlast s (by simp)
            unfold pruneEntry
            rw [if_neg (by simp)]
            rw [List.mem_filter]
            exact ⟨by simp, by simpa using hcx⟩
        | cons y ys => simp at hl1

theorem pruneEntry_mem_spec {cutoff : ℚ} {l : List ProgressSnapshot} :
    ∀ s ∈ pruneEntry cutoff l, cutoff ≤ s.timestamp ∨ s ∈ lastTwo l := by
  intro s hs
  unfold pruneEntry at hs
  split at hs
  · exact Or.inr hs
  · rw [List.mem_filter] at hs
    exact Or.inl (by simpa using hs.2)

theorem pruneEntry_ne_nil {cutoff : ℚ} {l : List ProgressSnapshot}
    (hc : Chrono l)
    (hlast : ∀ s, l.getLast? = some s → cutoff ≤ s.timestamp)
    (hne : l ≠ []) : pruneEntry cutoff l ≠ [] := by
  cases hglast : l.getLast? with
  | none => exact absurd (List.getLast?_eq_none_iff.mp hglast) hne
  | some s =>
      exact List.ne_nil_of_mem
        (lastTwo_subset_pruneEntry hc hlast s (getLast_mem_lastTwo hglast))

theorem length_pruneEntry_le {cutoff : ℚ} {l : List ProgressSnapshot} {n : ℕ}
    (h : l.length ≤ n) : (pruneEntry cutoff l).length ≤ n := by
  unfold pruneEntry
  split
  · next hcond =>
      unfold lastTwo
      rw [List.length_drop]
      omega
  · exact le_trans (List.length_filter_le _ _) h

/-!
## Speed-loop lemmas
-/

theorem pairSample_eq (a b : ProgressSnapshot) :
    pairSample a b =
      if 0 < b.timestamp - a.timestamp ∧ 0 < a.size_left - b.size_left then
        [speedSample a b]
      else [] := by
  unfold pairSample speedSample
  by_cases h1 : b.timestamp - a.timestamp ≤ 0
  · rw [if_pos h1, if_neg]
    intro hcon
    exact absurd hcon.1 (not_lt.mpr h1)
  · rw [if_neg h1]
    by_cases h2 : a.size_left - b.size_left ≤ 0
    · rw [if_pos h2, if_neg]
      intro hcon
      exact absurd hcon.2 (not_lt.mpr h2)
    · rw [if_neg h2]
      have htd : 0 < b.timestamp - a.timestamp := lt_of_not_le h1
      have hbytes : 0 < a.size_left - b.size_left := lt_of_not_le h2
      have hcast : (0 : ℚ) < ((a.size_left - b.size_left : ℤ) : ℚ) := by
        exact_mod_cast hbytes
      have hpos : 0 < ((a.size_left - b.size_left : ℤ) : ℚ) / (1024 * 1024) /
          (b.timestamp - a.timestamp) :=
        div_pos (div_pos hcast (by norm_num)) htd
      rw [if_pos hpos, if_pos ⟨htd, hbytes⟩]

theorem pairSpeeds_eq (l : List ProgressSnapshot) :
    pairSpeeds l =
      (l.zip l.tail).filterMap (fun pc =>
        if 0 < pc.2.timestamp - pc.1.timestamp ∧ 0 < pc.1.size_left - pc.2.size_left then
          some (speedSample pc.1 pc.2)
        else none) := by
  induction l with
  | nil => rfl
  | cons a t ih =>
      cases t with
      | nil => rfl
      | cons b rest =>
          show pairSample a b ++ pairSpeeds (b :: rest) = _
          rw [List.tail_cons, List.zip_cons_cons, List.filterMap_cons, ih, pairSample_eq]
          split
          · simp
          · simp

theorem entrySpeeds_eq (l : List ProgressSnapshot) :
    (if l.length < 2 then [] else pairSpeeds l) =
      (l.zip l.tail).filterMap (fun pc =>
        if 0 < pc.2.timestamp - pc.1.timestamp ∧ 0 < pc.1.size_left - pc.2.size_left then
          some (speedSample pc.1 pc.2)
        else none) := by
  split
  · next h =>
      cases l with
      | nil => rfl
      | cons a t =>
          cases t with
          | nil => rfl
          | cons b rest =>
              rw [List.length_cons, List.length_cons] at h
              omega
  · exact pairSpeeds_eq l

theorem pairSample_pos {a b : ProgressSnapshot} {q : ℚ} (h : q ∈ pairSample a b) :
    0 < q := by
  unfold pairSample at h
  split at h
  · simp at h
  · split at h
    · simp at h
    · split at h
      · next hpos =>
          rw [List.mem_singleton] at h
          subst h
          exact hpos
      · simp at h

theorem pairSpeeds_pos {l : List ProgressSnapshot} {q : ℚ} (h : q ∈ pairSpeeds l) :
    0 < q := by
  induction l with
  | nil => simp [pairSpeeds] at h
  | cons a t ih =>
      cases t with
      | nil => simp [pairSpeeds] at h
      | cons b rest =>
          rcases List.mem_append.mp h with h1 | h1
          · exact pairSample_pos h1
          · exact ih h1

/-!
## The per-download bound through one record call
-/

theorem allLe_processItem {cfg : TrackerConfig} {svc : String} {now : ℚ} {m : Store}
    (hmax : 1 ≤ cfg.max_snapshots_per_download)
    (h : ∀ e ∈ m, e.2.length ≤ cfg.max_snapshots_per_download) (item : QueueItem) :
    ∀ e ∈ processItem svc now cfg m item, e.2.length ≤ cfg.max_snapshots_per_download := by
  intro e he
  rcases mem_storeSet he with he1 | he1
  · subst he1
    exact length_trimEntry_le hmax _
  · exact h e he1

theorem allLe_processItems {cfg : TrackerConfig} {svc : String} {now : ℚ}
    (hmax : 1 ≤ cfg.max_snapshots_per_download) (items : List QueueItem) {m : Store}
    (h : ∀ e ∈ m, e.2.length ≤ cfg.max_snapshots_per_download) :
    ∀ e ∈ processItems items svc now cfg m, e.2.length ≤ cfg.max_snapshots_per_download := by
  induction items generalizing m with
  | nil => exact h
  | cons i is ih => exact ih (allLe_processItem hmax h i)

theorem allLe_record {cfg : TrackerConfig} {svc : String} {now : ℚ}
    (hmax : 1 ≤ cfg.max_snapshots_per_download) (items : List QueueItem) {m : Store}
    (h : ∀ e ∈ m, e.2.length ≤ cfg.max_snapshots_per_download) :
    ∀ e ∈ recordProgressSnapshot items svc now cfg m,
      e.2.length ≤ cfg.max_snapshots_per_download := by
  intro e he
  rw [recordProgressSnapshot, cleanupOldSnapshots] at he
  obtain ⟨e0, he0, heq⟩ := List.mem_map.mp he
  rw [recordedBeforePrune, cleanupInactiveDownloads] at he0
  have he0m := List.mem_of_mem_filter he0
  have hlen : e0.2.length ≤ cfg.max_snapshots_per_download :=
    allLe_processItems hmax items h e0 he0m
  have : e.2 = pruneEntry (now - cfg.progress_history_hours * 3600) e0.2 := by
    rw [← heq]
  rw [this]
  exact length_pruneEntry_le hlen

/-!
## Stall-analysis lemmas
-/

theorem analyzeDownloadProgress_download_id {cfg : TrackerConfig} {id : String}
    {snaps : List ProgressSnapshot} {now : ℚ} {info : StuckInfo}
    (h : analyzeDownloadProgress cfg id snaps now = some info) :
    info.download_id = id := by
  simp only [analyzeDownloadProgress] at h
  split at h
  · split at h
    · cases Option.some.inj h
      rfl
    · exact absurd h (by simp)
  · exact absurd h (by simp)

theorem analyzeDownloadProgress_none_of_few {cfg : TrackerConfig} {id : String}
    {snaps : List ProgressSnapshot} {now : ℚ}
    (h : (snaps.filter
        (fun s => now - cfg.stuck_threshold_minutes * 60 ≤ s.timestamp)).length < 2) :
    analyzeDownloadProgress cfg id snaps now = none := by
  simp only [analyzeDownloadProgress]
  split
  · next oldest s rest hfil =>
      rw [hfil] at h
      rw [List.length_cons, List.length_cons] at h
      omega
  · rfl

theorem mem_analyzeStuckDownloads {store : Store} {now : ℚ} {cfg : TrackerConfig}
    {info : StuckInfo} (h : info ∈ analyzeStuckDownloads store now cfg) :
    ∃ e ∈ store, ¬ e.2.length < 2 ∧ analyzeDownloadProgress cfg e.1 e.2 now = some info := by
  rw [analyzeStuckDownloads] at h
  obtain ⟨e, he, heq⟩ := List.mem_filterMap.mp h
  refine ⟨e, he, ?_⟩
  by_cases hlen : e.2.length < 2
  · rw [if_pos hlen] at heq
    exact absurd heq (by simp)
  · rw [if_neg hlen] at heq
    exact ⟨hlen, heq⟩

/-!
## Small evaluation helpers for the closed theorems
-/

theorem toString_int_one : toString (1 : ℤ) = "1" := rfl

/-!
## Claim theorems
-/

/-- Claim C1, counterexample: with the history exactly as the claim fixes it
(snapshots at t=0 s and t=7800 s = 130 min, progress 50 % and 50.2 %,
sizeLeft 1,000,000,000 and 999,900,000, both `downloading`), running
`analyze_stuck_downloads` at t=130 min with the claimed thresholds returns
the empty list: the t=0 snapshot fails the window filter
`timestamp ≥ now - 120 min`, only one snapshot remains in the window, and
the download is not reported — contradicting the claim that it is
classified stuck. -/
theorem c1_counterexample :
    analyzeStuckDownloads [("radarr_1", [c1SnapEarly, c1SnapLate])] 7800 defaultConfig
      = [] := by
  norm_num [analyzeStuckDownloads, analyzeDownloadProgress, defaultConfig, c1SnapEarly,
    c1SnapLate]

/-- Claim C1, amended: same readings and thresholds, but with the earlier
snapshot at t=10 min (600 s) so that both snapshots fall inside the
120-minute window and their span is exactly 120 minutes; then
`analyze_stuck_downloads` at t=130 min classifies the download stuck and
returns exactly its stuck-info record. -/
theorem c1_stall_threshold_concrete :
    analyzeStuckDownloads [("radarr_1", [c1SnapEdge, c1SnapLate])] 7800 defaultConfig =
      [{ download_id := "radarr_1", service := "radarr", item_id := "1",
         title := "Example", status := "downloading", progress_percent := 251/5,
         size_left := 999900000, stuck_duration_minutes := 120,
         progress_change := 1/5, size_change := 100000,
         download_client := "", protocol := "" }] := by
  norm_num [analyzeStuckDownloads, analyzeDownloadProgress, defaultConfig, c1SnapEdge,
    c1SnapLate, qabs, zabs, splitServiceId, splitAtUnderscore, List.filterMap_cons,
    List.filter]
  decide

/-- Claim C2: recording a Radarr batch deletes the Sonarr entry
`sonarr_5` even though that entry belongs to the other source —
`_cleanup_inactive_downloads` subtracts the batch ids from the whole key
set with no per-source restriction.  Before the call the Sonarr entry is
present; after `record_progress_snapshot([radarr item 1], 'radarr')` the
store holds only `radarr_1` and the `sonarr_5` lookup fails, contradicting
the claim that entries of the other source are left unchanged. -/
theorem c2_cross_source_purge :
    storeFind [("sonarr_5", [c2SonarrSnap])] "sonarr_5" = some [c2SonarrSnap] ∧
    recordProgressSnapshot [c2RadarrItem] "radarr" 10 defaultConfig
        [("sonarr_5", [c2SonarrSnap])] =
      [("radarr_1", [⟨10, 50, 1000000000, "downloading", "Movie", "", ""⟩])] ∧
    storeFind (recordProgressSnapshot [c2RadarrItem] "radarr" 10 defaultConfig
        [("sonarr_5", [c2SonarrSnap])]) "sonarr_5" = none := by
  have hpi : processItems [c2RadarrItem] "radarr" 10 defaultConfig
      [("sonarr_5", [c2SonarrSnap])] =
      [("sonarr_5", [c2SonarrSnap]),
       ("radarr_1", [⟨10, 50, 1000000000, "downloading", "Movie", "", ""⟩])] := by
    simp [processItems, processItem, downloadId, c2RadarrItem, storeFind, storeSet,
      mkSnapshot, trimEntry, pySliceLast, toString_int_one, defaultConfig]
  have hci : cleanupInactiveDownloads (activeIds [c2RadarrItem] "radarr")
      [("sonarr_5", [c2SonarrSnap]),
       ("radarr_1", [⟨10, 50, 1000000000, "downloading", "Movie", "", ""⟩])] =
      [("radarr_1", [⟨10, 50, 1000000000, "downloading", "Movie", "", ""⟩])] := by
    simp [cleanupInactiveDownloads, activeIds, downloadId, c2RadarrItem,
      toString_int_one, List.filter]
  have hco : cleanupOldSnapshots 10 defaultConfig
      [("radarr_1", [⟨10, 50, 1000000000, "downloading", "Movie", "", ""⟩])] =
      [("radarr_1", [⟨10, 50, 1000000000, "downloading", "Movie", "", ""⟩])] := by
    norm_num [cleanupOldSnapshots, pruneEntry, lastTwo, defaultConfig, List.filter]
  have hrec : recordProgressSnapshot [c2RadarrItem] "radarr" 10 defaultConfig
      [("sonarr_5", [c2SonarrSnap])] =
      [("radarr_1", [⟨10, 50, 1000000000, "downloading", "Movie", "", ""⟩])] := by
    rw [recordProgressSnapshot, recordedBeforePrune, hpi, hci, hco]
  refine ⟨by simp [storeFind], hrec, ?_⟩
  rw [hrec]
  simp [storeFind]

/-- Claim C3: in one `_async_refresh_data` cycle, when one source's
`get_queue_items` raises (or times out) and the other succeeds, the
failing source ends with its ready flag false and its cached queue exactly
as before the cycle, while the succeeding source ends ready — in both
directions (Radarr failing / Sonarr failing). -/
theorem c3_per_source_isolation (now : ℚ) (cfg : TrackerConfig)
    (items : List QueueItem) (s : CacheState) :
    ((asyncRefreshData now cfg FetchResult.err (FetchResult.ok items) s).radarr_loaded
        = false ∧
     (asyncRefreshData now cfg FetchResult.err (FetchResult.ok items) s).sonarr_loaded
        = true ∧
     (asyncRefreshData now cfg FetchResult.err (FetchResult.ok items) s).movie_queue
        = s.movie_queue) ∧
    ((asyncRefreshData now cfg (FetchResult.ok items) FetchResult.err s).sonarr_loaded
        = false ∧
     (asyncRefreshData now cfg (FetchResult.ok items) FetchResult.err s).radarr_loaded
        = true ∧
     (asyncRefreshData now cfg (FetchResult.ok items) FetchResult.err s).tv_queue
        = s.tv_queue) := by
  simp [asyncRefreshData, refreshRadarrData, refreshSonarrData]

/-- Claim C7: a `_refresh_data_async` invocation skips (contacts no source
and changes no state) exactly when the cycle starts inside the refresh
interval with both sources ready; otherwise it attempts both sources and
stamps `last_refresh` with the cycle start time, even if both attempts
failed. -/
theorem c7_cycle_gating (now : ℚ) (cfg : TrackerConfig) (r1 r2 : FetchResult)
    (s : CacheState) :
    ((refreshDataAsync now cfg r1 r2 s).2 = false ↔
      (now - s.last_refresh < s.refresh_interval ∧
        s.radarr_loaded = true ∧ s.sonarr_loaded = true)) ∧
    ((refreshDataAsync now cfg r1 r2 s).2 = false →
      (refreshDataAsync now cfg r1 r2 s).1 = s) ∧
    ((refreshDataAsync now cfg r1 r2 s).2 = true →
      (refreshDataAsync now cfg r1 r2 s).1.last_refresh = now) := by
  unfold refreshDataAsync
  split
  · next h => simp [h]
  · next h => simp [h]

/-- Claim C10: the time-window prune leaves an entry with a single stale
snapshot in the map with an empty snapshot list, and every reader is total
on such an entry: the summary returns none, the stall analysis reports
nothing, and the speed calculation yields no sample. -/
theorem c10_empty_entry_totality :
    cleanupOldSnapshots 100000 defaultConfig [("sonarr_9", [c2SonarrSnap])] =
      [("sonarr_9", [])] ∧
    (∀ k, getDownloadProgressSummary [(k, [])] k = none) ∧
    (∀ pre post k now cfg,
      analyzeStuckDownloads (pre ++ (k, []) :: post) now cfg =
        analyzeStuckDownloads (pre ++ post) now cfg) ∧
    (∀ pre post k,
      calculateDownloadSpeeds (pre ++ (k, []) :: post) =
        calculateDownloadSpeeds (pre ++ post)) := by
  refine ⟨?_, ?_, ?_, ?_⟩
  · norm_num [cleanupOldSnapshots, pruneEntry, lastTwo, defaultConfig, c2SonarrSnap,
      List.filter]
  · intro k
    simp [getDownloadProgressSummary, storeFind]
  · intro pre post k now cfg
    simp [analyzeStuckDownloads]
  · intro pre post k
    simp [calculateDownloadSpeeds]

/-- Claim C4: starting from the empty tracker, after any finite sequence of
`record_progress_snapshot` calls every entry holds at most
`maxSnapshotsPerDownload` snapshots (for any configured bound ≥ 1; the
trim slice `[-max:]` needs a positive bound to cut). -/
theorem c4_bounded_history (cfg : TrackerConfig)
    (hmax : 1 ≤ cfg.max_snapshots_per_download)
    (calls : List (List QueueItem × String × ℚ)) :
    ∀ e ∈ recordMany cfg calls [], e.2.length ≤ cfg.max_snapshots_per_download := by
  suffices h : ∀ m : Store, (∀ e ∈ m, e.2.length ≤ cfg.max_snapshots_per_download) →
      ∀ e ∈ recordMany cfg calls m, e.2.length ≤ cfg.max_snapshots_per_download by
    refine h [] ?_
    intro e he
    exact absurd he (List.not_mem_nil e)
  induction calls with
  | nil =>
      intro m hm
      exact hm
  | cons c cs ih =>
      intro m hm
      rw [recordMany, List.foldl_cons]
      exact ih _ (allLe_record hmax c.1 hm)

/-- Witness for C4: one concrete record call under the default bound of 50
keeps every entry within the bound. -/
theorem c4_bounded_history_witness :
    1 ≤ defaultConfig.max_snapshots_per_download ∧
    (∀ e ∈ recordMany defaultConfig [([c2RadarrItem], "radarr", 10)] [],
      e.2.length ≤ defaultConfig.max_snapshots_per_download) :=
  ⟨by norm_num [defaultConfig],
   c4_bounded_history defaultConfig (by norm_num [defaultConfig]) _⟩

/-- Claim C6: the speed list of `_calculate_download_speeds` is exactly one
sample per consecutive snapshot pair across all tracked downloads with
positive time delta and positive byte delta, valued
`(prev.sizeLeft - curr.sizeLeft) / 1,048,576 / timeDiff`; concretely, two
snapshots 10 s apart dropping from 1,000,000,000 to 500,000,000 bytes left
give exactly the one sample 390625/8192 ≈ 47.68 MiB/s, a non-decreasing
pair and a zero-time pair give no sample, and every emitted sample is
positive. -/
theorem c6_speed_calculation :
    (∀ store, calculateDownloadSpeeds store = speedsSpec store) ∧
    calculateDownloadSpeeds c6Store = [390625/8192] ∧
    ((4768 : ℚ)/100 < 390625/8192 ∧ (390625 : ℚ)/8192 < 4769/100) ∧
    calculateDownloadSpeeds c6FlatStore = [] ∧
    calculateDownloadSpeeds c6ZeroTdStore = [] ∧
    (∀ store q, q ∈ calculateDownloadSpeeds store → 0 < q) := by
  refine ⟨?_, ?_, ?_, ?_, ?_, ?_⟩
  · intro store
    unfold calculateDownloadSpeeds speedsSpec
    induction store with
    | nil => rfl
    | cons e rest ih => rw [List.flatMap_cons, List.flatMap_cons, ih, entrySpeeds_eq]
  · norm_num [calculateDownloadSpeeds, pairSpeeds, pairSample, c6Store]
  · norm_num
  · norm_num [calculateDownloadSpeeds, pairSpeeds, pairSample, c6FlatStore]
  · norm_num [calculateDownloadSpeeds, pairSpeeds, pairSample, c6ZeroTdStore]
  · intro store q hq
    unfold calculateDownloadSpeeds at hq
    obtain ⟨e, he, hqe⟩ := List.mem_flatMap.mp hq
    by_cases hlen : e.2.length < 2
    · rw [if_pos hlen] at hqe
      exact absurd hqe (List.not_mem_nil q)
    · rw [if_neg hlen] at hqe
      exact pairSpeeds_pos hqe

/-- Witness for C6: the concrete 47.68 MiB/s sample produced by `c6Store`
is positive, by the positivity clause of the theorem applied at that
store. -/
theorem c6_speed_calculation_witness : (0 : ℚ) < 390625/8192 := by
  have h := c6_speed_calculation
  refine h.2.2.2.2.2 c6Store (390625/8192) ?_
  rw [h.2.1]
  exact List.mem_singleton.mpr rfl

/-- Claim C9: a download whose entry has fewer than two snapshots, or fewer
than two snapshots within the stuck-threshold window at analysis time, is
never in the list returned by `analyze_stuck_downloads`. -/
theorem c9_stall_requires_evidence (store : Store) (now : ℚ) (cfg : TrackerConfig)
    (id : String) (snaps : List ProgressSnapshot)
    (hnd : (store.map Prod.fst).Nodup)
    (hmem : (id, snaps) ∈ store)
    (hfew : snaps.length < 2 ∨
      (snaps.filter
        (fun s => now - cfg.stuck_threshold_minutes * 60 ≤ s.timestamp)).length < 2) :
    ∀ info ∈ analyzeStuckDownloads store now cfg, info.download_id ≠ id := by
  intro info hin heq
  obtain ⟨e, he, hlen, hsome⟩ := mem_analyzeStuckDownloads hin
  obtain ⟨k0, v0⟩ := e
  have hid : k0 = id := (analyzeDownloadProgress_download_id hsome).symm.trans heq
  subst hid
  have hsnaps : v0 = snaps := mem_unique_of_nodup hnd he hmem
  rcases hfew with hf | hf
  · apply hlen
    rw [hsnaps]
    exact hf
  · have hn : analyzeDownloadProgress cfg k0 v0 now = none := by
      rw [hsnaps]
      exact analyzeDownloadProgress_none_of_few hf
    rw [hn] at hsome
    exact Option.noConfusion hsome

/-- Witness for C9: a store holding a single one-snapshot entry reports
nothing for that download. -/
theorem c9_stall_requires_evidence_witness :
    (([("radarr_1", [c2SonarrSnap])] : Store).map Prod.fst).Nodup ∧
    ("radarr_1", [c2SonarrSnap]) ∈ ([("radarr_1", [c2SonarrSnap])] : Store) ∧
    ([c2SonarrSnap].length < 2 ∨
      ([c2SonarrSnap].filter
        (fun s => (7800 : ℚ) - defaultConfig.stuck_threshold_minutes * 60 ≤
          s.timestamp)).length < 2) ∧
    (∀ info ∈ analyzeStuckDownloads [("radarr_1", [c2SonarrSnap])] 7800 defaultConfig,
      info.download_id ≠ "radarr_1") :=
  ⟨by simp, by simp, Or.inl (by simp),
   c9_stall_requires_evidence [("radarr_1", [c2SonarrSnap])] 7800 defaultConfig
     "radarr_1" [c2SonarrSnap] (by simp) (by simp) (Or.inl (by simp))⟩

/-- Witness for C7: at a ready state 10 s into a 30 s interval the cycle
leaves the state untouched. -/
theorem c7_cycle_gating_witness :
    (refreshDataAsync 10 defaultConfig FetchResult.err FetchResult.err c7State).1
      = c7State :=
  (c7_cycle_gating 10 defaultConfig FetchResult.err FetchResult.err c7State).2.1
    (by norm_num [refreshDataAsync, c7State])

/-- Claim C5: after a `record_progress_snapshot` call on a chronological
store, every surviving entry is the window-prune of the corresponding
entry of the intermediate (post-append, post-purge) store: the last two
snapshots of that entry are always retained even when older than
`progressHistoryWindow`, and every retained snapshot is either inside the
window or one of those last two. -/
theorem c5_window_pruning (cfg : TrackerConfig) (items : List QueueItem)
    (svc : String) (now : ℚ) (store : Store)
    (hh : 0 ≤ cfg.progress_history_hours)
    (hnd : (store.map Prod.fst).Nodup)
    (hok : StoreOk now store) :
    ∀ k post, (k, post) ∈ recordProgressSnapshot items svc now cfg store →
      ∃ pre, (k, pre) ∈ recordedBeforePrune items svc now cfg store ∧
        post = pruneEntry (now - cfg.progress_history_hours * 3600) pre ∧
        (∀ s ∈ lastTwo pre, s ∈ post) ∧
        (∀ s ∈ post,
          now - cfg.progress_history_hours * 3600 ≤ s.timestamp ∨ s ∈ lastTwo pre) := by
  intro k post hmem
  rw [recordProgressSnapshot, cleanupOldSnapshots] at hmem
  obtain ⟨e, he, heq⟩ := List.mem_map.mp hmem
  obtain ⟨k0, pre⟩ := e
  have hk : k0 = k := congrArg Prod.fst heq
  subst hk
  have hpost : post = pruneEntry (now - cfg.progress_history_hours * 3600) pre :=
    (congrArg Prod.snd heq).symm
  have he' := he
  rw [recordedBeforePrune, cleanupInactiveDownloads] at he'
  have hePM : (k0, pre) ∈ processItems items svc now cfg store :=
    List.mem_of_mem_filter he'
  have hact : k0 ∈ activeIds items svc := by
    have := List.of_mem_filter he'
    simpa using this
  have hchrono : Chrono pre := (storeOk_processItems items hok _ hePM).1
  have hndpm : ((processItems items svc now cfg store).map Prod.fst).Nodup :=
    keys_processItems_nodup items hnd
  obtain ⟨item, hitem, hidk⟩ := List.mem_map.mp (by simpa [activeIds] using hact)
  have htouch : TouchedAt now (processItems items svc now cfg store) k0 := by
    rw [← hidk]
    exact touchedAt_processItems_of_mem svc now cfg hitem store
  obtain ⟨e', s', hfind, hlast, hts⟩ := htouch
  have hfind2 : storeFind (processItems items svc now cfg store) k0 = some pre :=
    storeFind_eq_of_mem_nodup hndpm hePM
  have hee : e' = pre := by
    rw [hfind] at hfind2
    exact Option.some.inj hfind2
  subst hee
  have hlastpre : ∀ s, e'.getLast? = some s →
      now - cfg.progress_history_hours * 3600 ≤ s.timestamp := by
    intro s hs
    rw [hlast] at hs
    have hss : s' = s := Option.some.inj hs
    rw [← hss, hts]
    have hnn : 0 ≤ cfg.progress_history_hours * 3600 := by
      have h36 : (0 : ℚ) ≤ 3600 := by norm_num
      exact mul_nonneg hh h36
    linarith
  refine ⟨e', he, hpost, ?_, ?_⟩
  · rw [hpost]
    exact lastTwo_subset_pruneEntry hchrono hlastpre
  · rw [hpost]
    exact pruneEntry_mem_spec

/-- Witness for C5: one record call on the empty store; the surviving entry
is the prune of its intermediate entry and retains its last two
snapshots. -/
theorem c5_window_pruning_witness :
    ∃ pre, ("radarr_1", pre) ∈ recordedBeforePrune [c2RadarrItem] "radarr" 10
        defaultConfig [] ∧
      ([(⟨10, 50, 1000000000, "downloading", "Movie", "", ""⟩ : ProgressSnapshot)]) =
        pruneEntry (10 - defaultConfig.progress_history_hours * 3600) pre ∧
      (∀ s ∈ lastTwo pre,
        s ∈ [(⟨10, 50, 1000000000, "downloading", "Movie", "", ""⟩ : ProgressSnapshot)]) ∧
      (∀ s ∈ [(⟨10, 50, 1000000000, "downloading", "Movie", "", ""⟩ : ProgressSnapshot)],
        10 - defaultConfig.progress_history_hours * 3600 ≤ s.timestamp ∨
          s ∈ lastTwo pre) := by
  have hpi : processItems [c2RadarrItem] "radarr" 10 defaultConfig [] =
      [("radarr_1", [⟨10, 50, 1000000000, "downloading", "Movie", "", ""⟩])] := by
    simp [processItems, processItem, downloadId, c2RadarrItem, storeFind, storeSet,
      mkSnapshot, trimEntry, pySliceLast, toString_int_one, defaultConfig]
  have hci : cleanupInactiveDownloads (activeIds [c2RadarrItem] "radarr")
      [("radarr_1", [⟨10, 50, 1000000000, "downloading", "Movie", "", ""⟩])] =
      [("radarr_1", [⟨10, 50, 1000000000, "downloading", "Movie", "", ""⟩])] := by
    simp [cleanupInactiveDownloads, activeIds, downloadId, c2RadarrItem,
      toString_int_one, List.filter]
  have hco : cleanupOldSnapshots 10 defaultConfig
      [("radarr_1", [⟨10, 50, 1000000000, "downloading", "Movie", "", ""⟩])] =
      [("radarr_1", [⟨10, 50, 1000000000, "downloading", "Movie", "", ""⟩])] := by
    norm_num [cleanupOldSnapshots, pruneEntry, lastTwo, defaultConfig, List.filter]
  have hrec : recordProgressSnapshot [c2RadarrItem] "radarr" 10 defaultConfig [] =
      [("radarr_1", [⟨10, 50, 1000000000, "downloading", "Movie", "", ""⟩])] := by
    rw [recordProgressSnapshot, recordedBeforePrune, hpi, hci, hco]
  exact c5_window_pruning defaultConfig [c2RadarrItem] "radarr" 10 []
    (by norm_num [defaultConfig]) (by simp)
    (fun e he => absurd he (List.not_mem_nil e))
    "radarr_1" _ (by rw [hrec]; exact List.mem_singleton.mpr rfl)

/-- Claim C8, counterexample: a batch whose only item is missing its
progress, size and status fields is NOT skipped: `record_progress_snapshot`
records a snapshot for it, with the `item.get` defaults (progress 0,
sizeLeft 0, status `unknown`) filled in. -/
theorem c8_counterexample :
    recordProgressSnapshot [c8Malformed] "radarr" 5 defaultConfig [] =
      [("radarr_1", [⟨5, 0, 0, "unknown", "Invalid Movie", "", ""⟩])] := by
  have hpi : processItems [c8Malformed] "radarr" 5 defaultConfig [] =
      [("radarr_1", [⟨5, 0, 0, "unknown", "Invalid Movie", "", ""⟩])] := by
    simp [processItems, processItem, downloadId, c8Malformed, storeFind, storeSet,
      mkSnapshot, trimEntry, pySliceLast, toString_int_one, defaultConfig]
  have hci : cleanupInactiveDownloads (activeIds [c8Malformed] "radarr")
      [("radarr_1", [⟨5, 0, 0, "unknown", "Invalid Movie", "", ""⟩])] =
      [("radarr_1", [⟨5, 0, 0, "unknown", "Invalid Movie", "", ""⟩])] := by
    simp [cleanupInactiveDownloads, activeIds, downloadId, c8Malformed,
      toString_int_one, List.filter]
  have hco : cleanupOldSnapshots 5 defaultConfig
      [("radarr_1", [⟨5, 0, 0, "unknown", "Invalid Movie", "", ""⟩])] =
      [("radarr_1", [⟨5, 0, 0, "unknown", "Invalid Movie", "", ""⟩])] := by
    norm_num [cleanupOldSnapshots, pruneEntry, lastTwo, defaultConfig, List.filter]
  rw [recordProgressSnapshot, recordedBeforePrune, hpi, hci, hco]

/-- Claim C8, amended: no item of a batch is ever skipped — for every item,
well-formed or missing fields, the entry under its download id survives
the call with a non-empty snapshot list, and an item's missing fields are
filled with the `item.get` defaults (progress 0, sizeLeft 0, status
`unknown`) rather than the item being dropped. -/
theorem c8_malformed_items_recorded (cfg : TrackerConfig) (items : List QueueItem)
    (svc : String) (now : ℚ) (store : Store)
    (hh : 0 ≤ cfg.progress_history_hours)
    (hok : StoreOk now store) :
    (∀ item ∈ items, ∃ snaps,
      storeFind (recordProgressSnapshot items svc now cfg store)
        (downloadId svc item) = some snaps ∧ snaps ≠ []) ∧
    (∀ t : ℚ, mkSnapshot t c8Malformed =
      ⟨t, 0, 0, "unknown", "Invalid Movie", "", ""⟩) := by
  constructor
  · intro item hitem
    obtain ⟨e, s', hfind, hlast, hts⟩ :=
      touchedAt_processItems_of_mem svc now cfg hitem store
    have hchrono : Chrono e :=
      (storeOk_processItems items hok _ (storeFind_mem hfind)).1
    have hact : downloadId svc item ∈ activeIds items svc := by
      rw [activeIds]
      exact List.mem_map_of_mem _ hitem
    have hfind2 := storeFind_cleanupInactive hfind hact
    have hfind3 : storeFind (recordProgressSnapshot items svc now cfg store)
        (downloadId svc item) =
        some (pruneEntry (now - cfg.progress_history_hours * 3600) e) := by
      rw [recordProgressSnapshot, storeFind_cleanupOld, recordedBeforePrune, hfind2]
      rfl
    refine ⟨_, hfind3, ?_⟩
    have hlastpre : ∀ s, e.getLast? = some s →
        now - cfg.progress_history_hours * 3600 ≤ s.timestamp := by
      intro s hs
      rw [hlast] at hs
      have hss : s' = s := Option.some.inj hs
      rw [← hss, hts]
      have hnn : 0 ≤ cfg.progress_history_hours * 3600 := by
        have h36 : (0 : ℚ) ≤ 3600 := by norm_num
        exact mul_nonneg hh h36
      linarith
    have hne : e ≠ [] := by
      intro hcon
      subst hcon
      exact Option.noConfusion hlast
    exact pruneEntry_ne_nil hchrono hlastpre hne
  · intro t
    rfl

/-- Witness for C8: the malformed fixture batch on the empty store leaves a
non-empty entry for the item's id. -/
theorem c8_malformed_items_recorded_witness :
    (0 : ℚ) ≤ defaultConfig.progress_history_hours ∧
    (∀ item ∈ [c8Malformed], ∃ snaps,
      storeFind (recordProgressSnapshot [c8Malformed] "radarr" 5 defaultConfig [])
        (downloadId "radarr" item) = some snaps ∧ snaps ≠ []) :=
  ⟨by norm_num [defaultConfig],
   (c8_malformed_items_recorded defaultConfig [c8Malformed] "radarr" 5 []
     (by norm_num [defaultConfig])
     (fun e he => absurd he (List.not_mem_nil e))).1⟩

end Discarr
